import Mathlib

/-!
Verification of the `centra` request-scoped error-dispatch registry
(package `centra`, file with `Mux`, `NewMux`, `Handle`, `UnknownHandler`,
`Handler`, `Error`, `DefaultUnknownHandler`, `getMux`).

Shallow embedding conventions:
* Go `error` values are modelled by `GoErr`: an identity-comparable value
  (`id : Nat` distinguishes distinct sentinels) optionally exposing a single
  cause via `Unwrap` (constructor `wrap`).  A nilable error is `Option GoErr`.
* Go function values of type `ErrorHandlerFunc` are modelled by the inductive
  `ErrorHandlerFunc` (the built-in default handler, or an abstract user handler
  identified by a number); a nilable handler is `Option ErrorHandlerFunc`.
* A Go `panic` is modelled by returning `none` from an `Option`-valued
  function; the state-mutating operations (`Handle`, `UnknownHandler`) return
  `Option Mux`, the new state on success, `none` on panic (the panic happens
  before any mutation, so no post-panic state is needed).
* The free function `Error` selects and invokes exactly one handler per call;
  it is embedded as `Centra.Error`, returning the list of handler invocations
  it performs (`none` models a panic: unbound mux, out-of-range index, or a
  call of a nil function value).  `ErrorRun` composes the invocations into a
  response-writer effect for byte-level claims.
* `http.Request` context storage under the single key `keyContext{}` is
  modelled by a stack of context values, innermost first (`context.WithValue`
  derives a child context; `Value` finds the innermost binding).
* The `sync.RWMutex` is omitted: all claims under verification are about
  sequential behaviour.
-/

namespace Centra

/-- A non-nil Go error value: either a base sentinel (no `Unwrap` method) or a
wrapping error exposing one cause.  Equality of `GoErr` models Go identity
comparison (`==`) of comparable error values. -/
inductive GoErr where
  | base (id : Nat)
  | wrap (id : Nat) (cause : GoErr)
deriving DecidableEq, Repr

/-- The single `Unwrap() error` hop: a `base` error has no cause. -/
def GoErr.unwrap : GoErr → Option GoErr
  | .base _ => none
  | .wrap _ c => some c

/-- `errors.Is(err, target)` for non-nil `err` and non-nil `target`:
`err == target`, or recursively on the cause exposed by `Unwrap`. -/
def errorsIs (e target : GoErr) : Bool :=
  if e = target then true
  else
    match e with
    | .base _ => false
    | .wrap _ c => errorsIs c target

/-- `errors.Is(err, target)` for non-nil `err` and nilable `target`:
when `target` is nil, Go returns `err == target`, which is false here since
`err` is non-nil. -/
def errorsIsO (e : GoErr) (target : Option GoErr) : Bool :=
  match target with
  | none => false
  | some t => errorsIs e t

/-- Iterated unwrapping: `unwrapN k e` is the error reached from `e` after
exactly `k` unwrap hops, if the chain is that long. -/
def unwrapN : Nat → GoErr → Option GoErr
  | 0, e => some e
  | _ + 1, .base _ => none
  | k + 1, .wrap _ c => unwrapN k c

/-- A Go `ErrorHandlerFunc` function value: the built-in
`DefaultUnknownHandler`, or an abstract caller-supplied handler distinguished
by a marker id. -/
inductive ErrorHandlerFunc where
  | defaultUnknown
  | user (id : Nat)
deriving DecidableEq, Repr

/-- `type handlerStruct struct { err error; handler ErrorHandlerFunc }` —
both fields are nilable. -/
structure handlerStruct where
  err : Option GoErr
  handler : Option ErrorHandlerFunc
deriving DecidableEq, Repr

/-- `type Mux struct { handlersStack []handlerStruct; mu sync.RWMutex }`
(the mutex is omitted, see the file header). -/
structure Mux where
  handlersStack : List handlerStruct
deriving DecidableEq, Repr

/-- `NewMux()`: a Mux whose slot 0 is `{err: nil, handler: DefaultUnknownHandler}`. -/
def NewMux : Mux :=
  { handlersStack := [{ err := none, handler := some .defaultUnknown }] }

/-- `(m *Mux) Handle(err, handler)`: panics (`none`) when `err` or `handler`
is nil, otherwise appends the entry to `handlersStack`. -/
def Mux.Handle (m : Mux) (err : Option GoErr) (handler : Option ErrorHandlerFunc) :
    Option Mux :=
  match err with
  | none => none
  | some e =>
    match handler with
    | none => none
    | some f => some { handlersStack := m.handlersStack ++ [{ err := some e, handler := some f }] }

/-- `(m *Mux) UnknownHandler(handler)`: panics (`none`) when `handler` is nil,
otherwise overwrites index 0 with `{err: nil, handler: handler}`.  Go's
`m.handlersStack[0] = ...` panics on an empty stack; that out-of-range panic
is the second `none` branch (unreachable from `NewMux`). -/
def Mux.UnknownHandler (m : Mux) (handler : Option ErrorHandlerFunc) : Option Mux :=
  match handler with
  | none => none
  | some f =>
    match m.handlersStack with
    | [] => none
    | _ :: rest => some { handlersStack := { err := none, handler := some f } :: rest }

/-- `(m *Mux) GetUnknownHandler()`: returns `m.handlersStack[0].handler`.
The indexing panic on an empty stack is modelled by the outer `none`. -/
def Mux.GetUnknownHandler (m : Mux) : Option ErrorHandlerFunc :=
  match m.handlersStack[0]? with
  | none => none
  | some h0 => h0.handler

/-- A value stored in a request context under the process-unique key
`keyContext{}`: the `*Mux` the middleware binds, or (for totality claims about
the checked type assertion) a value of any other type. -/
inductive CtxValue where
  | muxValue (m : Mux)
  | other (n : Nat)
deriving DecidableEq, Repr

/-- An `*http.Request`, reduced to the context values stored under
`keyContext{}`, innermost (most recently derived) first: `context.WithValue`
derives a child context, and `Value` returns the innermost binding. -/
structure Request where
  ctx : List CtxValue
deriving DecidableEq, Repr

/-- `r.WithContext(context.WithValue(r.Context(), keyContext{}, v))`:
a derived request carrying one more scope value; `r` is not mutated. -/
def Request.withValue (r : Request) (v : CtxValue) : Request :=
  { ctx := v :: r.ctx }

/-- `getMux(r)`: `m, _ := r.Context().Value(keyContext{}).(*Mux)` — the
checked type assertion yields the innermost bound `*Mux`, or nil when the
context carries no value or a value of another type. -/
def getMux (r : Request) : Option Mux :=
  match r.ctx.head? with
  | some (CtxValue.muxValue m) => some m
  | _ => none

/-- The request as the downstream handler sees it after `(m *Mux) Handler`
rebinds the context: `r.WithContext(context.WithValue(r.Context(), keyContext{}, m))`. -/
def bindMux (m : Mux) (r : Request) : Request :=
  r.withValue (CtxValue.muxValue m)

/-- A response sink (`http.ResponseWriter` observed through a recorder):
headers set so far, the status code once written, and the body bytes. -/
structure Response where
  headers : List (String × String)
  status : Option Nat
  body : String
deriving DecidableEq, Repr

/-- `w.Header().Set(k, v)`: replaces any existing value for the key. -/
def Response.setHeader (w : Response) (k v : String) : Response :=
  { w with headers := w.headers.filter (fun p => p.1 != k) ++ [(k, v)] }

/-- `w.WriteHeader(code)`: the first call wins; later calls are ignored. -/
def Response.writeHeader (w : Response) (code : Nat) : Response :=
  match w.status with
  | some _ => w
  | none => { w with status := some code }

/-- `w.Write([]byte(s))`: appends to the body. -/
def Response.write (w : Response) (s : String) : Response :=
  { w with body := w.body ++ s }

/-- `DefaultUnknownHandler(w, r, err)`: sets Content-Type and Content-Length,
writes status 500 (`http.StatusInternalServerError`), writes the fixed body. -/
def DefaultUnknownHandler (w : Response) (_r : Request) (_err : Option GoErr) : Response :=
  let response := "<h1>Internal Server Error</h1>"
  let w := w.setHeader "Content-Type" "text/html"
  let w := w.setHeader "Content-Length" (toString response.length)
  let w := w.writeHeader 500
  w.write response

/-- Invoking an `ErrorHandlerFunc` value on the response sink.  A user
handler is observable only through a side-effecting marker (it writes its id
to the body), which is all the claims need of it. -/
def runHandler : ErrorHandlerFunc → Response → Request → Option GoErr → Response
  | .defaultUnknown, w, r, err => DefaultUnknownHandler w r err
  | .user id, w, _, _ => w.write ("[user " ++ toString id ++ "]")

/-- The scan loop of `Error`:
`for i := len(stack) - 1; i >= 1; i-- { if errors.Is(err, stack[i].err) { ... } }`,
started at index `i`; returns the entry of the first (highest-index) match at
an index `≥ 1`, or `none` when the loop falls through. -/
def findFrom (stack : List handlerStruct) (e : GoErr) : Nat → Option handlerStruct
  | 0 => none
  | i + 1 =>
    match stack[i + 1]? with
    | some h => if errorsIsO e h.err then some h else findFrom stack e i
    | none => findFrom stack e i

/-- The free function `Error(w, r, err)`: fetches the bound mux (panicking,
i.e. `none`, when absent); on nil `err` invokes slot 0 directly; otherwise
scans from the top of the stack down to index 1 and invokes the first match,
falling back to slot 0.  The result is the list of handler invocations
performed, each paired with the `err` argument passed to it — every
successful path performs exactly one invocation. -/
def Error (r : Request) (err : Option GoErr) :
    Option (List (ErrorHandlerFunc × Option GoErr)) :=
  match getMux r with
  | none => none
  | some mux =>
    match err with
    | none =>
      match mux.handlersStack[0]? with
      | none => none
      | some h0 => h0.handler.map (fun f => [(f, none)])
    | some e =>
      match findFrom mux.handlersStack e (mux.handlersStack.length - 1) with
      | some h => h.handler.map (fun f => [(f, some e)])
      | none =>
        match mux.handlersStack[0]? with
        | none => none
        | some h0 => h0.handler.map (fun f => [(f, some e)])

/-- The response-writing effect of `Error`: the selected handler's invocation
applied to the sink. -/
def ErrorRun (r : Request) (w : Response) (err : Option GoErr) : Option Response :=
  (Error r err).map (fun calls => calls.foldl (fun w c => runHandler c.1 w r c.2) w)

/-- `http.Handler`, reduced to its action on our request and response models;
`none` propagates a panic out of `ServeHTTP`. -/
def HttpHandler : Type :=
  Request → Response → Option Response

/-- `(m *Mux) Handler(next)`: the middleware wrapper — for each request,
derive the context binding `m` and invoke `next` on the derived request. -/
def Mux.Handler (m : Mux) (next : HttpHandler) : HttpHandler :=
  fun r w => next (r.withValue (CtxValue.muxValue m)) w

/-- A registration call on a `Mux`: `Handle(e, f)` or `UnknownHandler(f)`,
with possibly-nil arguments. -/
inductive Op where
  | handle (e : Option GoErr) (f : Option ErrorHandlerFunc)
  | unknown (f : Option ErrorHandlerFunc)
deriving DecidableEq, Repr

/-- Performing one registration call. -/
def applyOp (m : Mux) : Op → Option Mux
  | .handle e f => m.Handle e f
  | .unknown f => m.UnknownHandler f

/-- Performing a sequence of registration calls; `some m` means every call in
the sequence succeeded (none panicked). -/
def applyOps : Mux → List Op → Option Mux
  | m, [] => some m
  | m, op :: ops =>
    match applyOp m op with
    | none => none
    | some m2 => applyOps m2 ops

/-- The registry invariant: slot 0 exists, has a nil sentinel and a non-nil
handler, and every later entry has a non-nil sentinel and a non-nil handler. -/
def MuxInv (m : Mux) : Prop :=
  (∃ h0, m.handlersStack.head? = some h0 ∧ h0.err = none ∧ h0.handler ≠ none) ∧
  ∀ s ∈ m.handlersStack.tail, s.err ≠ none ∧ s.handler ≠ none

/-- Concrete sentinel `A` (a distinct comparable error value). -/
def errA : GoErr := .base 0

/-- Concrete sentinel `B`, distinct from `A`. -/
def errB : GoErr := .base 1

/-- The registry obtained from `NewMux` by registering handlers for the
sentinels `[A, B, A]` in that order. -/
def muxABA : Mux :=
  { handlersStack :=
      [ { err := none, handler := some .defaultUnknown },
        { err := some errA, handler := some (.user 1) },
        { err := some errB, handler := some (.user 2) },
        { err := some errA, handler := some (.user 3) } ] }

/-- The registry obtained from `NewMux` by registering one handler for `A`. -/
def muxSingleA : Mux :=
  { handlersStack :=
      [ { err := none, handler := some .defaultUnknown },
        { err := some errA, handler := some (.user 1) } ] }

/-! ## Helper lemmas -/

theorem errorsIs_self (s : GoErr) : errorsIs s s = true := by
  cases s <;> simp [errorsIs]

theorem errorsIs_of_unwrapN :
    ∀ (k : Nat) (e s : GoErr), unwrapN k e = some s → errorsIs e s = true := by
  intro k
  induction k with
  | zero =>
    intro e s h
    simp only [unwrapN, Option.some.injEq] at h
    subst h
    exact errorsIs_self e
  | succ k ih =>
    intro e s h
    cases e with
    | base id => simp [unwrapN] at h
    | wrap id c =>
      have hc : errorsIs c s = true := ih c s (by simpa [unwrapN] using h)
      by_cases he : GoErr.wrap id c = s
      · simp [errorsIs, he]
      · simp [errorsIs, he, hc]

theorem muxInv_newMux : MuxInv NewMux := by
  refine ⟨⟨{ err := none, handler := some .defaultUnknown }, rfl, rfl, by simp⟩, ?_⟩
  intro s hs
  simp [NewMux] at hs

theorem handlersStack_cons_of_head {m : Mux} {h0 : handlerStruct}
    (hh0 : m.handlersStack.head? = some h0) : ∃ t, m.handlersStack = h0 :: t := by
  cases hstk : m.handlersStack with
  | nil => rw [hstk] at hh0; simp at hh0
  | cons a t =>
    rw [hstk] at hh0
    simp only [List.head?_cons, Option.some.injEq] at hh0
    exact ⟨t, by rw [hh0]⟩

theorem muxInv_applyOp {m m2 : Mux} {op : Op} (hinv : MuxInv m)
    (h : applyOp m op = some m2) : MuxInv m2 := by
  obtain ⟨⟨h0, hh0, herr0, hhd0⟩, htail⟩ := hinv
  obtain ⟨t, hstk⟩ := handlersStack_cons_of_head hh0
  rw [hstk, List.tail_cons] at htail
  cases op with
  | handle e f =>
    cases e with
    | none => simp [applyOp, Mux.Handle] at h
    | some e0 =>
      cases f with
      | none => simp [applyOp, Mux.Handle] at h
      | some f0 =>
        simp only [applyOp, Mux.Handle, Option.some.injEq] at h
        subst h
        rw [hstk]
        refine ⟨⟨h0, by simp, herr0, hhd0⟩, ?_⟩
        intro s hs
        simp only [List.cons_append, List.tail_cons, List.mem_append,
          List.mem_singleton] at hs
        rcases hs with hs | hs
        · exact htail s hs
        · subst hs
          exact ⟨by simp, by simp⟩
  | unknown f =>
    cases f with
    | none => simp [applyOp, Mux.UnknownHandler] at h
    | some f0 =>
      simp only [applyOp, Mux.UnknownHandler, hstk, Option.some.injEq] at h
      subst h
      refine ⟨⟨{ err := none, handler := some f0 }, rfl, rfl, by simp⟩, ?_⟩
      intro s hs
      exact htail s (by simpa using hs)

theorem muxInv_applyOps :
    ∀ (ops : List Op) (m m2 : Mux), MuxInv m → applyOps m ops = some m2 → MuxInv m2 := by
  intro ops
  induction ops with
  | nil =>
    intro m m2 hinv h
    simp only [applyOps, Option.some.injEq] at h
    subst h; exact hinv
  | cons op ops ih =>
    intro m m2 hinv h
    rw [applyOps] at h
    cases hop : applyOp m op with
    | none => rw [hop] at h; simp at h
    | some m1 =>
      rw [hop] at h
      exact ih m1 m2 (muxInv_applyOp hinv hop) h

/-- The scan loop of `Error` started at index `n` returns the entry at the
highest matching index `j` with `1 ≤ j ≤ n`, provided no index above `j`
(up to `n`) matches. -/
theorem findFrom_eq_of_last_match (stack : List handlerStruct) (e : GoErr) :
    ∀ (n j : Nat) (hj2 : j < stack.length), 1 ≤ j → j ≤ n →
      errorsIsO e (stack.get ⟨j, hj2⟩).err = true →
      (∀ (i : Nat) (hi : i < stack.length), j < i → i ≤ n →
        errorsIsO e (stack.get ⟨i, hi⟩).err = false) →
      findFrom stack e n = some (stack.get ⟨j, hj2⟩) := by
  intro n
  induction n with
  | zero =>
    intro j hj2 hj1 hjn _ _
    omega
  | succ n ih =>
    intro j hj2 hj1 hjn hmatch hnomatch
    by_cases hj : j = n + 1
    · subst hj
      have hg : stack[n + 1]? = some (stack.get ⟨n + 1, hj2⟩) := by
        rw [List.getElem?_eq_getElem hj2, List.get_eq_getElem]
      have hmatch2 : errorsIsO e stack[n + 1].err = true := by
        simpa using hmatch
      rw [findFrom, hg]
      simp [hmatch2]
    · have hjn' : j ≤ n := by omega
      rw [findFrom]
      rcases Nat.lt_or_ge (n + 1) stack.length with hlen | hlen
      · have hg : stack[n + 1]? = some (stack.get ⟨n + 1, hlen⟩) := by
          rw [List.getElem?_eq_getElem hlen, List.get_eq_getElem]
        have hfalse : errorsIsO e stack[n + 1].err = false := by
          simpa using hnomatch (n + 1) hlen (by omega) (le_refl _)
        rw [hg]
        simpa [hfalse] using
          ih j hj2 hj1 hjn' hmatch (fun i hi hji hin => hnomatch i hi hji (by omega))
      · have hg : stack[n + 1]? = none := List.getElem?_eq_none hlen
        rw [hg]
        exact ih j hj2 hj1 hjn' hmatch (fun i hi hji hin => hnomatch i hi hji (by omega))

/-! ## Claims -/

/-- C3: if no registry is bound in the request's scope, the dispatch entry
point `Error` panics (`none`) and invokes no handler, for every error
argument, nil or not. -/
theorem error_without_bound_mux_panics (r : Request) (err : Option GoErr)
    (h : getMux r = none) : Error r err = none := by
  simp [Error, h]

theorem error_without_bound_mux_panics_witness :
    Error { ctx := [] } none = none :=
  error_without_bound_mux_panics { ctx := [] } none rfl

/-- C4: a fresh `NewMux` registry dispatching any non-nil error produces
exactly the default response: status 500, Content-Type text/html,
Content-Length 30 (the body length), body `<h1>Internal Server Error</h1>`. -/
theorem fresh_mux_default_response (e : GoErr) :
    ErrorRun (bindMux NewMux { ctx := [] })
        { headers := [], status := none, body := "" } (some e) =
      some { headers := [("Content-Type", "text/html"), ("Content-Length", "30")],
             status := some 500, body := "<h1>Internal Server Error</h1>" } ∧
    ("<h1>Internal Server Error</h1>" : String).length = 30 :=
  ⟨rfl, rfl⟩

theorem fresh_mux_default_response_witness :
    ErrorRun (bindMux NewMux { ctx := [] })
        { headers := [], status := none, body := "" } (some errA) =
      some { headers := [("Content-Type", "text/html"), ("Content-Length", "30")],
             status := some 500, body := "<h1>Internal Server Error</h1>" } ∧
    ("<h1>Internal Server Error</h1>" : String).length = 30 :=
  fresh_mux_default_response errA

/-- C5: registering with a nil sentinel or a nil handler (`Handle`), or a nil
handler (`UnknownHandler`), panics (`none`): no handler is invoked and no
successor registry state is produced — the registry is left as it was. -/
theorem register_nil_panics (m : Mux) (e : GoErr) (f : ErrorHandlerFunc) :
    m.Handle none (some f) = none ∧ m.Handle none none = none ∧
    m.Handle (some e) none = none ∧ m.UnknownHandler none = none :=
  ⟨rfl, rfl, rfl, rfl⟩

theorem register_nil_panics_witness :
    NewMux.Handle none (some (.user 1)) = none ∧ NewMux.Handle none none = none ∧
    NewMux.Handle (some errA) none = none ∧ NewMux.UnknownHandler none = none :=
  register_nil_panics NewMux errA (.user 1)

/-- C8: the middleware wrapper of `Handler` passes `next` the derived request
whose scope binds exactly the wrapping registry, and nesting wrappers from
two registries lets the innermost one win (simple key overwrite). -/
theorem handler_binds_exact_mux (m m1 m2 : Mux) (next : HttpHandler)
    (r : Request) (w : Response) :
    m.Handler next r w = next (bindMux m r) w ∧
    getMux (bindMux m r) = some m ∧
    m1.Handler (m2.Handler next) r w = next (bindMux m2 (bindMux m1 r)) w ∧
    getMux (bindMux m2 (bindMux m1 r)) = some m2 :=
  ⟨rfl, rfl, rfl, rfl⟩

theorem handler_binds_exact_mux_witness :
    NewMux.Handler (fun _ w => some w) { ctx := [] }
        { headers := [], status := none, body := "" } =
      (fun _ w => some w : HttpHandler) (bindMux NewMux { ctx := [] })
        { headers := [], status := none, body := "" } ∧
    getMux (bindMux NewMux { ctx := [] }) = some NewMux ∧
    NewMux.Handler (muxSingleA.Handler (fun _ w => some w)) { ctx := [] }
        { headers := [], status := none, body := "" } =
      (fun _ w => some w : HttpHandler)
        (bindMux muxSingleA (bindMux NewMux { ctx := [] }))
        { headers := [], status := none, body := "" } ∧
    getMux (bindMux muxSingleA (bindMux NewMux { ctx := [] })) = some muxSingleA :=
  handler_binds_exact_mux NewMux NewMux muxSingleA (fun _ w => some w)
    { ctx := [] } { headers := [], status := none, body := "" }

/-- C10: the scope lookup is total — when the request's context carries no
binding under the mux key, or a value of another type, `getMux` returns nil
via the checked type assertion, and `Error` then fails only through its
deliberate initialization panic. -/
theorem getMux_total_checked (r : Request) (err : Option GoErr)
    (h : ∀ m : Mux, r.ctx.head? ≠ some (CtxValue.muxValue m)) :
    getMux r = none ∧ Error r err = none := by
  have hg : getMux r = none := by
    cases hc : r.ctx.head? with
    | none => simp [getMux, hc]
    | some v =>
      cases v with
      | muxValue m => exact absurd hc (h m)
      | other n => simp [getMux, hc]
  exact ⟨hg, by simp [Error, hg]⟩

theorem getMux_total_checked_witness :
    getMux { ctx := [CtxValue.other 7] } = none ∧
    Error { ctx := [CtxValue.other 7] } (some errA) = none :=
  getMux_total_checked { ctx := [CtxValue.other 7] } (some errA)
    (fun m h => by simp at h)

/-- C1: dispatching a non-nil error scans the entries from the highest index
down to index 1 and invokes exactly the handler of the first (most recently
registered) entry whose sentinel matches the wrap-chain — one invocation per
call; in particular, registering handlers for sentinels `[A, B, A]` in that
order and dispatching `A` invokes the third entry's handler. -/
theorem dispatch_scans_newest_first :
    (∀ (m : Mux) (r : Request) (e : GoErr) (j : Nat) (hj2 : j < m.handlersStack.length),
      getMux r = some m → 1 ≤ j →
      errorsIsO e (m.handlersStack.get ⟨j, hj2⟩).err = true →
      (∀ (i : Nat) (hi : i < m.handlersStack.length), j < i →
        errorsIsO e (m.handlersStack.get ⟨i, hi⟩).err = false) →
      Error r (some e) =
        (m.handlersStack.get ⟨j, hj2⟩).handler.map (fun f => [(f, some e)])) ∧
    applyOps NewMux
      [Op.handle (some errA) (some (.user 1)), Op.handle (some errB) (some (.user 2)),
       Op.handle (some errA) (some (.user 3))] = some muxABA ∧
    Error (bindMux muxABA { ctx := [] }) (some errA) =
      some [(ErrorHandlerFunc.user 3, some errA)] := by
  refine ⟨?_, by decide, by decide⟩
  intro m r e j hj2 hr hj1 hmatch hnomatch
  have hfind : findFrom m.handlersStack e (m.handlersStack.length - 1) =
      some (m.handlersStack.get ⟨j, hj2⟩) := by
    apply findFrom_eq_of_last_match
    · exact hj1
    · omega
    · exact hmatch
    · intro i hi hji hin
      exact hnomatch i hi hji
  simp only [Error, hr]
  rw [hfind]

theorem dispatch_scans_newest_first_witness :
    Error (bindMux muxABA { ctx := [] }) (some errA) =
      (muxABA.handlersStack.get ⟨3, by decide⟩).handler.map
        (fun f => [(f, some errA)]) :=
  dispatch_scans_newest_first.1 muxABA (bindMux muxABA { ctx := [] }) errA 3
    (by decide) rfl (by decide) (by decide)
    (by
      intro i hi hji
      exfalso
      simp [muxABA] at hi
      omega)

/-- C2: for every error whose unwrap chain reaches sentinel `S` after `k`
hops (any `k ≥ 0`), dispatching it against a registry holding a handler
registered for `S` invokes that handler, passing the original error, not the
matched sentinel or any unwrapped intermediate. -/
theorem dispatch_matches_wrapped_at_depth (S e : GoErr) (f : ErrorHandlerFunc)
    (k : Nat) (m : Mux) (r : Request)
    (hm : NewMux.Handle (some S) (some f) = some m)
    (hr : getMux r = some m) (hk : unwrapN k e = some S) :
    Error r (some e) = some [(f, some e)] := by
  simp only [Mux.Handle, NewMux, Option.some.injEq] at hm
  subst hm
  have hIs : errorsIs e S = true := errorsIs_of_unwrapN k e S hk
  simp [Error, hr, findFrom, errorsIsO, hIs]

theorem dispatch_matches_wrapped_at_depth_witness :
    Error (bindMux { handlersStack := NewMux.handlersStack ++
        [{ err := some errA, handler := some (.user 1) }] } { ctx := [] })
      (some (GoErr.wrap 9 (GoErr.wrap 8 errA))) =
      some [(ErrorHandlerFunc.user 1, some (GoErr.wrap 9 (GoErr.wrap 8 errA)))] :=
  dispatch_matches_wrapped_at_depth errA (GoErr.wrap 9 (GoErr.wrap 8 errA))
    (.user 1) 2
    { handlersStack := NewMux.handlersStack ++
        [{ err := some errA, handler := some (.user 1) }] }
    (bindMux { handlersStack := NewMux.handlersStack ++
        [{ err := some errA, handler := some (.user 1) }] } { ctx := [] })
    rfl rfl (by decide)

/-- C6: on every registry reachable from `NewMux` by successful registration
calls and bound to a request, dispatching a nil error invokes the slot-0
unknown handler directly (the entry scan is never consulted). -/
theorem nil_error_invokes_unknown (ops : List Op) (m : Mux) (r : Request)
    (hops : applyOps NewMux ops = some m) (hr : getMux r = some m) :
    ∃ f, m.GetUnknownHandler = some f ∧ Error r none = some [(f, none)] := by
  obtain ⟨⟨h0, hh0, _, hhd0⟩, _⟩ := muxInv_applyOps ops NewMux m muxInv_newMux hops
  obtain ⟨t, hstk⟩ := handlersStack_cons_of_head hh0
  cases hf : h0.handler with
  | none => exact absurd hf hhd0
  | some f =>
    refine ⟨f, ?_, ?_⟩
    · simp [Mux.GetUnknownHandler, hstk, hf]
    · simp [Error, hr, hstk, hf]

theorem nil_error_invokes_unknown_witness :
    ∃ f, NewMux.GetUnknownHandler = some f ∧
      Error (bindMux NewMux { ctx := [] }) none = some [(f, none)] :=
  nil_error_invokes_unknown [] NewMux (bindMux NewMux { ctx := [] }) rfl rfl

/-- C7: index 0 of every registry reachable from `NewMux` by successful
`Handle` and `UnknownHandler` calls holds a non-nil handler. -/
theorem slot_zero_nonnil_handler (ops : List Op) (m : Mux)
    (hops : applyOps NewMux ops = some m) :
    ∃ h0 f, m.handlersStack[0]? = some h0 ∧ h0.handler = some f := by
  obtain ⟨⟨h0, hh0, _, hhd0⟩, _⟩ := muxInv_applyOps ops NewMux m muxInv_newMux hops
  obtain ⟨t, hstk⟩ := handlersStack_cons_of_head hh0
  cases hf : h0.handler with
  | none => exact absurd hf hhd0
  | some f => exact ⟨h0, f, by simp [hstk], hf⟩

theorem slot_zero_nonnil_handler_witness :
    ∃ h0 f, muxSingleA.handlersStack[0]? = some h0 ∧ h0.handler = some f :=
  slot_zero_nonnil_handler [Op.handle (some errA) (some (.user 1))] muxSingleA
    (by decide)

/-- C9: in every registry reachable from `NewMux` by successful `Handle` and
`UnknownHandler` calls, every entry at index 1 or higher carries a non-nil
sentinel. -/
theorem tail_sentinels_nonnil (ops : List Op) (m : Mux)
    (hops : applyOps NewMux ops = some m) (i : Nat)
    (hi : i < m.handlersStack.length) (h1 : 1 ≤ i) :
    (m.handlersStack.get ⟨i, hi⟩).err ≠ none := by
  obtain ⟨⟨h0, hh0, _, _⟩, htail⟩ := muxInv_applyOps ops NewMux m muxInv_newMux hops
  obtain ⟨t, hstk⟩ := handlersStack_cons_of_head hh0
  obtain ⟨j, rfl⟩ : ∃ j, i = j + 1 := ⟨i - 1, by omega⟩
  have hj : j < t.length := by
    rw [hstk] at hi
    simpa using hi
  have hget : m.handlersStack.get ⟨j + 1, hi⟩ = t.get ⟨j, hj⟩ := by
    rw [List.get_of_eq hstk]
    simp [List.get_eq_getElem]
  rw [hget]
  refine (htail _ ?_).1
  rw [hstk, List.tail_cons]
  simp only [List.get_eq_getElem]
  exact List.getElem_mem hj

theorem tail_sentinels_nonnil_witness :
    (muxSingleA.handlersStack.get ⟨1, by decide⟩).err ≠ none :=
  tail_sentinels_nonnil [Op.handle (some errA) (some (.user 1))] muxSingleA
    (by decide) 1 (by decide) (by decide)

end Centra
